import Mathlib

/-!
Shallow embedding of the mutation-testing core (`core/mutation_applier.py`,
`parallel/worker_pool.py`, and the log parser specified in §4.1 of the design
document) together with proofs about the embedded operations.

Files are modelled as lists of raw lines (the result of Python `readlines`,
each line keeping its trailing newline), and functions that in Python rewrite
a file on disk are modelled as pure functions returning the success flag
together with the resulting line list; the failure branches that in Python
return before any `write` call return the input lines unchanged.

Python exceptions (`ZeroDivisionError` from `% 0`) are modelled with
`Except String`.  Python's `random.Random` is the Mersenne Twister MT19937;
it is embedded below word for word from CPython's `_randommodule.c`
(`init_genrand`, `init_by_array`, `genrand_uint32`) and `random.py`
(`getrandbits`, `_randbelow_with_getrandbits`, `randint`), with the one
unavoidable deviation that the rejection-sampling loop of `_randbelow`
carries a fuel counter, since its termination is only probabilistic.
-/

namespace CodeReasoning

/-! ## Python string primitives -/

/-- Model of Python `list.startswith` on character lists: `pat` is a prefix of `s`. -/
def listStarts : List Char → List Char → Bool
  | [], _ => true
  | _ :: _, [] => false
  | p :: ps, c :: cs => p == c && listStarts ps cs

/-- Model of Python `sub in s` (contiguous substring test) on character lists. -/
def hasSub (pat : List Char) : List Char → Bool
  | [] => listStarts pat []
  | c :: cs => listStarts pat (c :: cs) || hasSub pat cs

/-- Model of Python `sub in s` on strings. -/
def pyContains (pat s : String) : Bool := hasSub pat.data s.data

/-- Model of Python `s.find(sub)` on character lists: index of the first
occurrence, or `none` where Python returns `-1`. -/
def findSub (pat : List Char) : List Char → Option Nat
  | [] => if listStarts pat [] then some 0 else none
  | c :: cs =>
    if listStarts pat (c :: cs) then some 0
    else (findSub pat cs).map (· + 1)

/-- Model of Python `s.find(sub)` on strings. -/
def pyFind (s pat : String) : Option Nat := findSub pat.data s.data

/-- The characters stripped by Python `str.strip()` (ASCII whitespace). -/
def isPySpace (c : Char) : Bool :=
  c == ' ' || c == '\t' || c == '\n' || c == '\x0b' || c == '\x0c' || c == '\r'

/-- Model of Python `s.strip()`: drop leading and trailing whitespace. -/
def pyStrip (s : String) : String :=
  ⟨((s.data.dropWhile isPySpace).reverse.dropWhile isPySpace).reverse⟩

/-- Replacement text interleaved at every character boundary: this is what
Python `s.replace("", new)` produces (`"ab".replace("", "X") = "XaXbX"`). -/
def pyInterleave (new : List Char) : List Char → List Char
  | [] => new
  | c :: cs => new ++ c :: pyInterleave new cs

/-- Model of Python `s.replace(pat, new)` for a nonempty `pat`: scan left to
right, replacing each (non-overlapping, leftmost) occurrence.  The `fuel`
argument only makes the recursion structural (kernel-computable); every
step consumes at least one character, so callers pass the string length. -/
def pyReplaceAux (pat new : List Char) : Nat → List Char → List Char
  | 0, s => s
  | _ + 1, [] => []
  | fuel + 1, c :: cs =>
    if listStarts pat (c :: cs) then
      new ++ pyReplaceAux pat new fuel (List.drop (pat.length - 1) cs)
    else
      c :: pyReplaceAux pat new fuel cs

/-- Model of Python `s.replace(pat, new)` (replaces every occurrence; an empty
pattern inserts `new` at every character boundary). -/
def pyReplace (s pat new : String) : String :=
  if pat.data.isEmpty then ⟨pyInterleave new.data s.data⟩
  else ⟨pyReplaceAux pat.data new.data s.data.length s.data⟩

/-! ## Data model -/

/-- One mutation record, as produced by the log parser and consumed by
`MutationApplier` (the Python code passes these around as dicts with keys
`mutant_id`, `mutator`, `class_name`, `line_number`, `original_code`,
`mutated_code`). -/
structure MutationRecord where
  mutant_id : String
  mutator : String
  class_name : String
  line_number : Int
  original_code : String
  mutated_code : String
deriving DecidableEq, Repr, Inhabited

/-! ## TextPatcher: `MutationApplier.apply_mutation_to_file` -/

/-- Embedding of `MutationApplier.apply_mutation_to_file`
(`core/mutation_applier.py`).  The file is `lines` (Python `readlines`
output); the result is the returned boolean together with the file content
after the call (failure paths in Python return before the `write`, so they
leave `lines` unchanged). -/
def apply_mutation_to_file (lines : List String) (line_number : Int)
    (original_code mutated_code : String) : Bool × List String :=
  if line_number < 1 ∨ line_number > lines.length then
    (false, lines)
  else
    let target_line_index := (line_number - 1).toNat
    let original_line := lines.getD target_line_index ""
    if pyContains original_code original_line then
      (true, lines.set target_line_index (pyReplace original_line original_code mutated_code))
    else if pyContains (pyStrip original_code) (pyStrip original_line) then
      let stripped_original := pyStrip original_code
      let stripped_line := pyStrip original_line
      if pyContains stripped_original stripped_line then
        match pyFind original_line stripped_original with
        | some start_idx =>
          let end_idx := start_idx + stripped_original.data.length
          let before : String := ⟨original_line.data.take start_idx⟩
          let after : String := ⟨original_line.data.drop end_idx⟩
          (true, lines.set target_line_index (before ++ mutated_code ++ after))
        | none => (true, lines)
      else (true, lines)
    else
      (false, lines)

/-! ## TextPatcher: `MutationApplier.apply_multiple_mutations` -/

/-- Stable insertion of `a` into `acc` behind every element `b` with
`le b a`; folding it over a list reproduces Python's stable `sorted`. -/
def insSorted (le : α → α → Bool) (a : α) : List α → List α
  | [] => [a]
  | b :: bs => if le b a then b :: insSorted le a bs else a :: b :: bs

/-- Model of Python `sorted(l, key=...)` for the boolean comparison
`le x y = (key x ≤ key y)`: a stable ascending sort. -/
def pySorted (le : α → α → Bool) (l : List α) : List α :=
  l.foldl (fun acc a => insSorted le a acc) []

/-- The body of the per-mutation loop of
`MutationApplier.apply_multiple_mutations`: one mutation applied to the
in-memory line list.  Out-of-range line numbers and non-matching original
code leave the lines unchanged (the Python loop `continue`s or simply falls
through — there is no failure path). -/
def applyOneOfMany (lines : List String) (m : MutationRecord) : List String :=
  if m.line_number < 1 ∨ m.line_number > lines.length then
    lines
  else
    let target_line_index := (m.line_number - 1).toNat
    let original_line := lines.getD target_line_index ""
    if pyContains m.original_code original_line then
      lines.set target_line_index (pyReplace original_line m.original_code m.mutated_code)
    else if pyContains (pyStrip m.original_code) (pyStrip original_line) then
      let stripped_original := pyStrip m.original_code
      if pyContains stripped_original (pyStrip original_line) then
        match pyFind original_line stripped_original with
        | some start_idx =>
          let end_idx := start_idx + stripped_original.data.length
          let before : String := ⟨original_line.data.take start_idx⟩
          let after : String := ⟨original_line.data.drop end_idx⟩
          lines.set target_line_index (before ++ m.mutated_code ++ after)
        | none => lines
      else lines
    else
      lines

/-- Embedding of `MutationApplier.apply_multiple_mutations`
(`core/mutation_applier.py`): sorts the batch by line number descending
(Python `sorted(..., reverse=True)`, stable), applies each mutation in turn
to the in-memory lines, then writes the file once and returns `True`.  The
only `False` paths in Python are a missing file and I/O exceptions, which do
not exist in the pure model of an existing file. -/
def apply_multiple_mutations (lines : List String) (mutations : List MutationRecord) :
    Bool × List String :=
  let mutations_sorted := pySorted (fun a b => b.line_number ≤ a.line_number) mutations
  (true, mutations_sorted.foldl applyOneOfMany lines)

/-! ## CPython `random.Random`: the MT19937 generator

`generate_unique_mutants` derives each combination's mutation count with
`random.Random(seed).randint(1, max_mutations)`.  CPython's `Random` is the
Mersenne Twister; the functions below transcribe `init_genrand`,
`init_by_array` and `genrand_uint32` from `Modules/_randommodule.c` and
`getrandbits` / `_randbelow_with_getrandbits` / `randint` from
`Lib/random.py`.  Machine words are `Nat` reduced `% 2^32`; shifts are
division/multiplication by powers of two.  The C state array `uint32_t mt[624]` is represented as a
single natural number whose base-`2^32` digit `i` is `mt[i]`, so every state
read and write is plain (kernel-computable) arithmetic. -/

/-- `2^32`, the word modulus of MT19937. -/
def M32 : Nat := 4294967296

/-- The C `^` on `uint32_t` (both arguments are always already reduced
`% 2^32`, so plain `Nat.xor` coincides with the 32-bit operation). -/
def xor32 (a b : Nat) : Nat := Nat.xor a b

/-- The C `&` on `uint32_t`. -/
def and32 (a b : Nat) : Nat := Nat.land a b

/-- 32-bit wrap-around subtraction (`(uint32_t)(a - b)` for reduced `a b`). -/
def sub32 (a b : Nat) : Nat := (a % M32 + M32 - b % M32) % M32

/-- `2^(32*i)`, the place value of word `i` of a packed state (written with
the kernel-accelerated shift, since `2 ^ e` is not folded for large `e`). -/
def wordPow (i : Nat) : Nat := Nat.shiftLeft 1 (32 * i)

/-- Word `i` of a packed state (digit `i` in base `2^32`): the read `mt[i]`. -/
def wordGet (st i : Nat) : Nat := st / wordPow i % M32

/-- Packed state with word `i` replaced by `v`: the write `mt[i] = v`. -/
def wordSet (st i v : Nat) : Nat :=
  st - wordGet st i * wordPow i + v * wordPow i

/-- Semantically the identity on `a`; evaluating the condition forces `n`, so
that the kernel evaluates the 624-step seeding loops iteratively instead of
accumulating one long lazy chain of states. -/
def forceWith (n : Nat) (a : α) : α := if n = 0 then a else a

theorem forceWith_eq (n : Nat) (a : α) : forceWith n a = a := by
  unfold forceWith; split <;> rfl

/-- The loop of `init_genrand`:
`mt[i] = 1812433253 * (mt[i-1] ^ (mt[i-1] >> 30)) + i` for `i` in `1..623`. -/
def initGenLoop : Nat → Nat → Nat → Nat → Nat
  | 0, _, _, st => st
  | fuel + 1, i, prev, st =>
    let v := (1812433253 * xor32 prev (prev / 2 ^ 30) + i) % M32
    let st2 := st + v * wordPow i
    forceWith st2 (initGenLoop fuel (i + 1) v st2)

/-- `init_genrand(s)`: the 624-word state seeded from a single word. -/
def init_genrand (s : Nat) : Nat :=
  initGenLoop 623 1 (s % M32) (s % M32)

/-- The first mixing loop of `init_by_array` (runs `max(624, key_length)`
times; `i`, `j` as in the C source; returns the state together with the
final value of `i`, which the second loop continues from). -/
def initByArrayLoop1 (key : List Nat) : Nat → Nat → Nat → Nat → Nat × Nat
  | 0, i, _, st => (st, i)
  | fuel + 1, i, j, st =>
    let v := (xor32 (wordGet st i)
                (xor32 (wordGet st (i - 1)) (wordGet st (i - 1) / 2 ^ 30) * 1664525 % M32)
              + key.getD j 0 % M32 + j) % M32
    let st := wordSet st i v
    let i := i + 1
    let j := j + 1
    let p := if i ≥ 624 then (wordSet st 0 (wordGet st 623), 1) else (st, i)
    let j := if j ≥ key.length then 0 else j
    forceWith p.1 (initByArrayLoop1 key fuel p.2 j p.1)

/-- The second mixing loop of `init_by_array` (runs 623 times). -/
def initByArrayLoop2 : Nat → Nat → Nat → Nat
  | 0, _, st => st
  | fuel + 1, i, st =>
    let v := sub32
      (xor32 (wordGet st i)
        (xor32 (wordGet st (i - 1)) (wordGet st (i - 1) / 2 ^ 30) * 1566083941 % M32)) i
    let st := wordSet st i v
    let i := i + 1
    let p := if i ≥ 624 then (wordSet st 0 (wordGet st 623), 1) else (st, i)
    forceWith p.1 (initByArrayLoop2 fuel p.2 p.1)

/-- `init_by_array(key)`: state seeded from a word array. -/
def init_by_array (key : List Nat) : Nat :=
  let st := init_genrand 19650218
  let p := initByArrayLoop1 key (max 624 key.length) 1 0 st
  let st := initByArrayLoop2 623 p.2 p.1
  wordSet st 0 2147483648

/-- The little-endian 32-bit digits of a positive integer (`fuel` only makes
the recursion structural; `fuel = n` always suffices since the digit count
of `n` is at most `n`). -/
def wordDigitsAux : Nat → Nat → List Nat
  | 0, _ => []
  | fuel + 1, n => if n = 0 then [] else n % M32 :: wordDigitsAux fuel (n / M32)

/-- The little-endian 32-bit digits of a positive integer. -/
def wordDigits (n : Nat) : List Nat := wordDigitsAux n n

/-- CPython `random_seed` for a nonnegative integer seed: the key is the
32-bit digit decomposition of the seed (a single zero word for seed 0). -/
def seedKey (n : Nat) : List Nat := if n = 0 then [0] else wordDigits n

/-- Equality of `Except` results is decidable componentwise. -/
instance instDecEqExcept [DecidableEq ε] [DecidableEq α] : DecidableEq (Except ε α) := fun a b =>
  match a, b with
  | .error e, .error f =>
    if h : e = f then .isTrue (by rw [h]) else .isFalse (fun hh => h (Except.error.injEq .. ▸ hh))
  | .error _, .ok _ => .isFalse (fun hh => Except.noConfusion hh)
  | .ok _, .error _ => .isFalse (fun hh => Except.noConfusion hh)
  | .ok x, .ok y =>
    if h : x = y then .isTrue (by rw [h]) else .isFalse (fun hh => h (Except.ok.injEq .. ▸ hh))

/-- The generator state: the packed 624 state words plus the output index.  A
fresh `random.Random(n)` starts at index 624, so the first draw twists. -/
structure MTState where
  mt : Nat
  index : Nat
deriving Repr

/-- `random.Random(n)` for a nonnegative integer `n`. -/
def mtFromSeed (n : Nat) : MTState := ⟨init_by_array (seedKey n), 624⟩

/-- One step of the state twist (`kk` ranging over `0..623`); reads of
already-rewritten cells match the C code's in-place update. -/
def twistStep (st kk : Nat) : Nat :=
  let y := wordGet st kk / 2 ^ 31 * 2 ^ 31 + wordGet st ((kk + 1) % 624) % 2 ^ 31
  let mag := if y % 2 == 1 then 2567483615 else 0
  wordSet st kk (xor32 (wordGet st ((kk + 397) % 624)) (xor32 (y / 2) mag))

/-- The full state twist performed when the output index reaches 624. -/
def twistLoop : Nat → Nat → Nat → Nat
  | 0, _, st => st
  | fuel + 1, kk, st =>
    let st2 := twistStep st kk
    forceWith st2 (twistLoop fuel (kk + 1) st2)

/-- The full state twist (all 624 words). -/
def twist (st : Nat) : Nat := twistLoop 624 0 st

/-- `genrand_uint32`: one 32-bit output word plus the successor state. -/
def genrand_uint32 (st : MTState) : Nat × MTState :=
  let p := if st.index ≥ 624 then (twist st.mt, 0) else (st.mt, st.index)
  let y := wordGet p.1 p.2
  let y := xor32 y (y / 2 ^ 11)
  let y := xor32 y (and32 (y * 2 ^ 7 % M32) 2636928640)
  let y := xor32 y (and32 (y * 2 ^ 15 % M32) 4022730752)
  let y := xor32 y (y / 2 ^ 18)
  (y, ⟨p.1, p.2 + 1⟩)

/-- `getrandbits(k)` for `1 ≤ k ≤ 32`: the top `k` bits of one output word. -/
def getrandbits (k : Nat) (st : MTState) : Nat × MTState :=
  let p := genrand_uint32 st
  (p.1 / 2 ^ (32 - k), p.2)

/-- Python `int.bit_length` (`fuel` only makes the recursion structural;
`fuel = n` suffices since the bit length of `n` is at most `n`). -/
def bitLengthAux : Nat → Nat → Nat
  | 0, _ => 0
  | fuel + 1, n => if n = 0 then 0 else bitLengthAux fuel (n / 2) + 1

/-- Python `int.bit_length`. -/
def bitLength (n : Nat) : Nat := bitLengthAux n n

/-- The rejection loop of `_randbelow_with_getrandbits`: draw `k`-bit values
until one is `< n`.  The Python loop has no bound; the model carries fuel and
reports exhaustion as an error (every concrete run below succeeds long before
the fuel runs out). -/
def randbelowLoop (n k : Nat) : Nat → MTState → Except String (Nat × MTState)
  | 0, _ => .error "randbelow: fuel exhausted"
  | fuel + 1, st =>
    let p := getrandbits k st
    if p.1 < n then .ok (p.1, p.2) else randbelowLoop n k fuel p.2

/-- `_randbelow_with_getrandbits(n)` for `n ≥ 1`: a uniform draw from
`[0, n)`. -/
def randbelow (n : Nat) (st : MTState) : Except String (Nat × MTState) :=
  randbelowLoop n (bitLength n) 10000 st

/-- `random.Random(seed).randint(a, b)`: `randrange(a, b+1)` raises
`ValueError` on an empty range and otherwise returns `a + _randbelow(b+1-a)`. -/
def pyRandint (seed : Nat) (a b : Nat) : Except String Nat :=
  if b < a then .error "ValueError: empty range for randrange()"
  else (randbelow (b + 1 - a) (mtFromSeed seed)).map (fun p => a + p.1)

/-! ## CombinationGenerator: `MutationApplier.generate_unique_mutants` -/

/-- One generated combination (the `mutant_info` dict).  The five trailing
fields are the flattened copies of the first selected record that the code
adds only when the selection is nonempty. -/
structure Mutant where
  mutant_id : String
  mutations : List MutationRecord
  num_mutations : Nat
  mutators : List String
  signature : String
  project_id : String
  bug_id : String
  generation_seed : Nat
  mutator : Option String
  class_name : Option String
  line_number : Option Int
  original_code : Option String
  mutated_code : Option String
deriving DecidableEq, Repr

/-- Python string `<`: lexicographic comparison by code point. -/
def pyStrLt : List Char → List Char → Bool
  | _, [] => false
  | [], _ :: _ => true
  | a :: as, b :: bs =>
    if a.toNat = b.toNat then pyStrLt as bs else decide (a.toNat < b.toNat)

/-- Python string `≤` (the total order's reflexive closure). -/
def pyStrLe (a b : List Char) : Bool := ! pyStrLt b a

/-- The canonical sort key of step 1: Python tuple comparison on
`(class_name, line_number, mutator, original_code)`. -/
def keyLe (a b : MutationRecord) : Bool :=
  if a.class_name ≠ b.class_name then pyStrLt a.class_name.data b.class_name.data
  else if a.line_number ≠ b.line_number then decide (a.line_number < b.line_number)
  else if a.mutator ≠ b.mutator then pyStrLt a.mutator.data b.mutator.data
  else pyStrLe a.original_code.data b.original_code.data

/-- The within-combination sort key: Python tuple comparison on
`(class_name, line_number)`. -/
def selLe (a b : MutationRecord) : Bool :=
  if a.class_name ≠ b.class_name then pyStrLt a.class_name.data b.class_name.data
  else decide (a.line_number ≤ b.line_number)

/-- The signature of a selection: `class_name:line_number:mutator` parts
joined with `"|"`. -/
def mkSignature (selected : List MutationRecord) : String :=
  String.intercalate "|"
    (selected.map (fun m => m.class_name ++ ":" ++ toString m.line_number ++ ":" ++ m.mutator))

/-- The index-formula selection loop: record `(base + i * step) % len` of the
canonically sorted list, for `i` in `0..c`. -/
def selectRecords (sorted : List MutationRecord) (base step c : Nat) : List MutationRecord :=
  (List.range c).map (fun i => sorted.getD ((base + i * step) % sorted.length) default)

/-- One selection attempt: draw `num_for_mutant = randint(1, mx)` from a fresh
`random.Random(aseed)`, pick records by the index formula with the given
`step`, sort them, and build the signature.  An empty record list raises
`ZeroDivisionError` at the first `% len` exactly as the Python code does. -/
def genAttempt (sorted : List MutationRecord) (aseed step mx : Nat) :
    Except String (List MutationRecord × String) :=
  match pyRandint aseed 1 mx with
  | .error e => .error e
  | .ok num_for_mutant =>
    if sorted.length = 0 ∧ num_for_mutant ≠ 0 then .error "ZeroDivisionError"
    else
      let selected := pySorted selLe (selectRecords sorted aseed step num_for_mutant)
      .ok (selected, mkSignature selected)

/-- The `mutant_info` dictionary built for an accepted signature. -/
def mkMutant (pid bid : String) (mutant_seed : Nat) (selected : List MutationRecord)
    (signature : String) (numSoFar : Nat) : Mutant where
  mutant_id := if selected.isEmpty then "gen_" ++ toString (numSoFar + 1)
               else String.intercalate "|" (selected.map (·.mutant_id))
  mutations := selected
  num_mutations := selected.length
  mutators := pySorted (fun a b => pyStrLe a.data b.data) (selected.map (·.mutator))
  signature := signature
  project_id := pid
  bug_id := bid
  generation_seed := mutant_seed
  mutator := selected.head?.map (·.mutator)
  class_name := selected.head?.map (·.class_name)
  line_number := selected.head?.map (·.line_number)
  original_code := selected.head?.map (·.original_code)
  mutated_code := selected.head?.map (·.mutated_code)

/-- One iteration of the `for mutant_num in range(1, num_mutants + 1)` loop:
first attempt with stride 17, on a signature collision one retry from
`mutant_seed + 9999` with stride 23, acceptance only for a fresh signature. -/
def genStep (random_seed : Nat) (pid bid : String) (sorted : List MutationRecord)
    (mx mutant_num : Nat) (acc : List Mutant) (used : List String) :
    Except String (List Mutant × List String) :=
  let mutant_seed := random_seed + mutant_num * 1000
  match genAttempt sorted mutant_seed 17 mx with
  | .error e => .error e
  | .ok first =>
    match (if first.2 ∈ used then genAttempt sorted (mutant_seed + 9999) 23 mx
           else .ok first) with
    | .error e => .error e
    | .ok final =>
      if final.2 ∈ used then .ok (acc, used)
      else .ok (acc ++ [mkMutant pid bid mutant_seed final.1 final.2 acc.length],
                used ++ [final.2])

/-- The generation loop over the mutant numbers. -/
def genLoop (random_seed : Nat) (pid bid : String) (sorted : List MutationRecord)
    (mx : Nat) : List Nat → List Mutant → List String → Except String (List Mutant)
  | [], acc, _ => .ok acc
  | k :: ks, acc, used =>
    match genStep random_seed pid bid sorted mx k acc used with
    | .error e => .error e
    | .ok p => genLoop random_seed pid bid sorted mx ks p.1 p.2

/-- Embedding of `MutationApplier.generate_unique_mutants`
(`core/mutation_applier.py`).  `random_seed`, `project_id` and `bug_id` are
the constructor arguments the method reads from `self`; the method itself
never touches `self.rng` or any process-global random state.  Python
exceptions surface as `Except.error`. -/
def generate_unique_mutants (random_seed : Nat) (project_id bug_id : String)
    (all_mutations : List MutationRecord) (num_mutants max_mutations : Nat) :
    Except String (List Mutant) :=
  let sorted_mutations := pySorted keyLe all_mutations
  genLoop random_seed project_id bug_id sorted_mutations max_mutations
    (List.range' 1 num_mutants) [] []

/-! ## LogParser: `MutationParser.parse_mutant_line` / `parse_all_mutations`

`core/mutation_parser.py` is not part of the source tree (only its tests,
its mock in `tests/conftest.py` and its callers are), so the parser is
modelled from the specification. -/

/-- Split a character list at every occurrence of `sep` (Python `s.split(sep)`). -/
def splitOnChar (sep : Char) : List Char → List (List Char)
  | [] => [[]]
  | c :: cs =>
    match splitOnChar sep cs with
    | [] => if c == sep then [[], []] else [[c]]
    | h :: t => if c == sep then [] :: h :: t else (c :: h) :: t

/-- Join character lists with `sep` between them (Python `sep.join(parts)`). -/
def joinWithChar (sep : Char) : List (List Char) → List Char
  | [] => []
  | [h] => h
  | h :: t => h ++ sep :: joinWithChar sep t

/-- The digits of a decimal numeral, or `none` if any character is not a
digit (Python `int(s)` restricted to the nonnegative numerals that occur in
the line-number field). -/
def parseDigits : List Char → Option Nat
  | [] => none
  | l => l.foldl (fun acc c =>
      acc.bind (fun n => if c.isDigit then some (n * 10 + (c.toNat - 48)) else none))
      (some 0)

/-- Modelled from the spec: `MutationParser.parse_mutant_line` (§4.1, §6 of
the design document; `core/mutation_parser.py` is missing from the source
tree).  A log line is colon-delimited
`id:mutator:descSig1:descSig2:qualifiedLocation:lineNumber:extra:originalCode |==> mutatedCode`;
empty lines, lines starting with `#` and lines not matching the schema are
rejected; the class key is the text of the qualified-location field before
`@`; the `<NO-OP>` sentinel maps the mutated code to the comment-wrapped
original. -/
def parse_mutant_line (line : String) : Option MutationRecord :=
  match line.data with
  | [] => none
  | c :: cs =>
    if c == '#' then none
    else
      let parts := splitOnChar ':' (c :: cs)
      if parts.length < 8 then none
      else
        let clause := joinWithChar ':' (parts.drop 7)
        match parseDigits (parts.getD 5 []), findSub (" |==> ").data clause with
        | some ln, some i =>
          let original : List Char := clause.take i
          let mutated : List Char := clause.drop (i + 6)
          let classKey := (parts.getD 4 []).takeWhile (fun c => c ≠ '@')
          let mutatedCode : String :=
            if mutated = ("<NO-OP>").data then "/*" ++ ⟨original⟩ ++ "*/" else ⟨mutated⟩
          some ⟨⟨parts.getD 0 []⟩, ⟨parts.getD 1 []⟩, ⟨classKey⟩, Int.ofNat ln,
                ⟨original⟩, mutatedCode⟩
        | _, _ => none

/-- Modelled from the spec: `MutationParser.parse_all_mutations` on the
lines of a log file.  Each line goes through `parse_mutant_line`; two parsed
records are duplicates only when every field is identical, and only the
first occurrence is kept, in first-occurrence order. -/
def parse_all_mutations (lines : List String) : List MutationRecord :=
  (lines.filterMap parse_mutant_line).foldl
    (fun acc r => if r ∈ acc then acc else acc ++ [r]) []

/-! ## WorkerPool: workspace naming and the cleanup guard -/

/-- The character class kept by the mutant-id sanitizer in
`WorkerPool.process_mutants_parallel` (`re.sub(r'[^A-Za-z0-9_.-]', '_', s)`
replaces every character outside it with `_`). -/
def isSafeChar (c : Char) : Bool :=
  (('A' ≤ c && c ≤ 'Z') || ('a' ≤ c && c ≤ 'z') || ('0' ≤ c && c ≤ '9')
    || c == '_' || c == '.' || c == '-')

/-- `safe_mid = re.sub(r'[^A-Za-z0-9_.-]', '_', raw_mid)` from
`WorkerPool.process_mutants_parallel`. -/
def sanitizeMutantId (s : String) : String :=
  ⟨s.data.map (fun c => if isSafeChar c then c else '_')⟩

/-- The workspace directory path built by `WorkerPool.process_mutants_parallel`:
`work_dir.parent / f"temp_mutant_{project_id}_{bug_id}_{safe_mid}_{i}_{uuid.uuid4().hex}"`
(pathlib joins with `/`). -/
def mkMutantDir (parent project_id bug_id raw_mid : String) (i : Nat) (uuidHex : String) :
    String :=
  parent ++ "/" ++ "temp_mutant_" ++ project_id ++ "_" ++ bug_id ++ "_"
    ++ sanitizeMutantId raw_mid ++ "_" ++ toString i ++ "_" ++ uuidHex

/-- The guard of the `finally` block of `WorkerPool.process_single_mutant`:
process termination and workspace removal run only when
`"temp_mutant_" in str(mutant_dir)`. -/
def cleanupRuns (mutant_dir : String) : Bool := pyContains "temp_mutant_" mutant_dir

/-! ## Concrete sample inputs (used by witnesses and counterexamples) -/

/-- A sample mutation record (as in `tests/test_validation.py`). -/
def sampleRecA : MutationRecord := ⟨"1", "M", "C", 10, "o", "m"⟩

/-- A second sample mutation record. -/
def sampleRecB : MutationRecord := ⟨"2", "M2", "C", 20, "o2", "m2"⟩

/-- The first combination of the sample generation run
`generate_unique_mutants 42 "p" "b" [sampleRecA, sampleRecB] 2 2`
(one record, drawn with combination seed `42 + 1 * 1000 = 1042`). -/
def sampleMutant1 : Mutant :=
  ⟨"1", [sampleRecA], 1, ["M"], "C:10:M", "p", "b", 1042,
   some "M", some "C", some 10, some "o", some "m"⟩

/-- The second combination of the sample generation run (two records, drawn
with combination seed `42 + 2 * 1000 = 2042`). -/
def sampleMutant2 : Mutant :=
  ⟨"1|2", [sampleRecA, sampleRecB], 2, ["M", "M2"], "C:10:M|C:20:M2", "p", "b", 2042,
   some "M", some "C", some 10, some "o", some "m"⟩

/-! ## Helper lemmas -/

theorem listStarts_iff {p s : List Char} : listStarts p s = true ↔ p <+: s := by
  induction p generalizing s with
  | nil => exact ⟨fun _ => List.nil_prefix, fun _ => rfl⟩
  | cons a as ih =>
    cases s with
    | nil => simp only [listStarts, List.prefix_nil]; simp
    | cons c cs =>
      simp only [listStarts, Bool.and_eq_true, beq_iff_eq, ih, List.cons_prefix_cons]

theorem hasSub_iff {p s : List Char} : hasSub p s = true ↔ p <:+: s := by
  induction s with
  | nil => simp only [hasSub, listStarts_iff, List.infix_nil, List.prefix_nil]
  | cons c cs ih =>
    simp only [hasSub, Bool.or_eq_true, listStarts_iff, ih, List.infix_cons_iff]

theorem pyContains_iff {p s : String} : pyContains p s = true ↔ p.data <:+: s.data := by
  simp [pyContains, hasSub_iff]

theorem pyInterleave_eq (new s : List Char) :
    pyInterleave new s = new ++ s.flatMap (fun c => c :: new) := by
  induction s with
  | nil => simp [pyInterleave]
  | cons c cs ih => simp [pyInterleave, ih]

theorem hasSub_nil_pat (s : List Char) : hasSub [] s = true := by
  cases s <;> rfl

theorem mem_insSorted {le : α → α → Bool} {a x : α} {l : List α} :
    x ∈ insSorted le a l ↔ x = a ∨ x ∈ l := by
  induction l with
  | nil => simp [insSorted]
  | cons b bs ih =>
    simp only [insSorted]
    split
    · simp only [List.mem_cons, ih]
      tauto
    · simp [List.mem_cons]

theorem mem_pySorted {le : α → α → Bool} {x : α} {l : List α} :
    x ∈ pySorted le l ↔ x ∈ l := by
  suffices h : ∀ acc, x ∈ l.foldl (fun acc a => insSorted le a acc) acc ↔ x ∈ acc ∨ x ∈ l by
    simpa [pySorted] using h []
  induction l with
  | nil => simp
  | cons b bs ih =>
    intro acc
    simp only [List.foldl_cons, ih, mem_insSorted, List.mem_cons]
    tauto

theorem length_insSorted {le : α → α → Bool} {a : α} {l : List α} :
    (insSorted le a l).length = l.length + 1 := by
  induction l with
  | nil => rfl
  | cons b bs ih =>
    simp only [insSorted]
    split
    · simp [ih]
    · simp

theorem length_pySorted {le : α → α → Bool} {l : List α} :
    (pySorted le l).length = l.length := by
  suffices h : ∀ acc : List α,
      (l.foldl (fun acc a => insSorted le a acc) acc).length = acc.length + l.length by
    simpa [pySorted] using h []
  induction l with
  | nil => simp
  | cons b bs ih =>
    intro acc
    simp only [List.foldl_cons, ih, length_insSorted, List.length_cons]
    omega

theorem randbelowLoop_lt {n k fuel : Nat} {st st2 : MTState} {r : Nat}
    (h : randbelowLoop n k fuel st = .ok (r, st2)) : r < n := by
  induction fuel generalizing st with
  | zero => cases h
  | succ f ih =>
    simp only [randbelowLoop] at h
    split at h
    · cases h
      assumption
    · exact ih h

theorem pyRandint_ok_bounds {seed a b c : Nat} (h : pyRandint seed a b = .ok c) :
    a ≤ c ∧ c ≤ b := by
  unfold pyRandint at h
  split at h
  · cases h
  · rename_i hab
    unfold randbelow at h
    cases hr : randbelowLoop (b + 1 - a) (bitLength (b + 1 - a)) 10000 (mtFromSeed seed) with
    | error e => rw [hr] at h; cases h
    | ok p =>
      obtain ⟨r, st2⟩ := p
      rw [hr] at h
      simp only [Except.map] at h
      cases h
      have hlt : r < b + 1 - a := randbelowLoop_lt hr
      have hba : ¬ b < a := hab
      omega

theorem selectRecords_length {sorted : List MutationRecord} {base step c : Nat} :
    (selectRecords sorted base step c).length = c := by
  simp [selectRecords]

theorem selectRecords_mem {sorted : List MutationRecord} {base step c : Nat}
    (hs : sorted ≠ []) {r : MutationRecord} (h : r ∈ selectRecords sorted base step c) :
    r ∈ sorted := by
  simp only [selectRecords, List.mem_map] at h
  obtain ⟨i, _, hi⟩ := h
  have hlen : 0 < sorted.length := List.length_pos.mpr hs
  have hidx : (base + i * step) % sorted.length < sorted.length := Nat.mod_lt _ hlen
  rw [← hi, List.getD_eq_getElem sorted default hidx]
  exact List.getElem_mem _

/-- What a successful `genAttempt` returns: a count `c = randint(1, mx)` with
`1 ≤ c ≤ mx`, a nonempty canonical record list selected by the index formula,
and its signature. -/
theorem genAttempt_ok {sorted : List MutationRecord} {aseed step mx : Nat}
    {sel : List MutationRecord} {sig : String}
    (h : genAttempt sorted aseed step mx = .ok (sel, sig)) :
    ∃ c, pyRandint aseed 1 mx = .ok c ∧ 1 ≤ c ∧ c ≤ mx ∧ sorted ≠ [] ∧
      sel = pySorted selLe (selectRecords sorted aseed step c) ∧ sig = mkSignature sel := by
  unfold genAttempt at h
  cases hr : pyRandint aseed 1 mx with
  | error e => rw [hr] at h; cases h
  | ok c =>
    rw [hr] at h
    have hb := pyRandint_ok_bounds hr
    dsimp only [] at h
    split at h
    · cases h
    · rename_i hcond
      cases h
      refine ⟨c, rfl, hb.1, hb.2, ?_, rfl, rfl⟩
      intro hnil
      exact hcond ⟨by simp [hnil], by omega⟩

/-- What a successful `genStep` returns: either the accumulator is unchanged
(a doubly-colliding signature was skipped), or one mutant built by `mkMutant`
from a successful attempt (stride 17, or stride 23 after a collision) with a
fresh signature was appended, and its signature recorded. -/
theorem genStep_shape {seed : Nat} {pid bid : String} {sorted : List MutationRecord}
    {mx k : Nat} {acc : List Mutant} {used : List String} {p : List Mutant × List String}
    (h : genStep seed pid bid sorted mx k acc used = .ok p) :
    p = (acc, used) ∨
    ∃ sel sig,
      (genAttempt sorted (seed + k * 1000) 17 mx = .ok (sel, sig) ∨
       genAttempt sorted (seed + k * 1000 + 9999) 23 mx = .ok (sel, sig)) ∧
      sig ∉ used ∧
      p = (acc ++ [mkMutant pid bid (seed + k * 1000) sel sig acc.length],
           used ++ [sig]) := by
  simp only [genStep] at h
  split at h
  · cases h
  · rename_i first heq1
    split at h
    · cases h
    · rename_i final heq2
      split at h
      · cases h
        exact Or.inl rfl
      · rename_i hnotin
        cases h
        refine Or.inr ⟨final.1, final.2, ?_, hnotin, rfl⟩
        by_cases hin : first.2 ∈ used
        · rw [if_pos hin] at heq2
          exact Or.inr heq2
        · rw [if_neg hin] at heq2
          cases heq2
          exact Or.inl heq1

/-- Invariant of the generation loop: if every accumulated signature is
recorded in `used` and the accumulated signatures are pairwise distinct, the
final list's signatures are pairwise distinct (a mutant is appended only
when its signature is not in `used`, and its signature is recorded). -/
theorem genLoop_pairwise {seed : Nat} {pid bid : String} {sorted : List MutationRecord}
    {mx : Nat} {ks : List Nat} {acc : List Mutant} {used : List String} {l : List Mutant}
    (hmem : ∀ m ∈ acc, m.signature ∈ used)
    (hpw : acc.Pairwise (fun a b => a.signature ≠ b.signature))
    (h : genLoop seed pid bid sorted mx ks acc used = .ok l) :
    l.Pairwise (fun a b => a.signature ≠ b.signature) := by
  induction ks generalizing acc used with
  | nil =>
    simp only [genLoop] at h
    cases h
    exact hpw
  | cons k ks ih =>
    simp only [genLoop] at h
    split at h
    · cases h
    · rename_i p hstep
      rcases genStep_shape hstep with heq | ⟨sel, sig, _, hnotin, heq⟩
      · rw [heq] at h
        exact ih hmem hpw h
      · rw [heq] at h
        refine ih ?_ ?_ h
        · intro m hm
          rcases List.mem_append.mp hm with hm | hm
          · exact List.mem_append_left _ (hmem m hm)
          · simp only [List.mem_singleton] at hm
            subst hm
            exact List.mem_append_right _ (by simp [mkMutant])
        · rw [List.pairwise_append]
          refine ⟨hpw, by simp, ?_⟩
          intro a ha b hb
          simp only [List.mem_singleton] at hb
          subst hb
          intro hcontra
          have hused : a.signature ∈ used := hmem a ha
          rw [show (mkMutant pid bid (seed + k * 1000) sel sig acc.length).signature = sig
            from rfl] at hcontra
          rw [hcontra] at hused
          exact hnotin hused

/-- Every mutant in the output of the generation loop satisfies any property
enjoyed by all mutants built from successful attempts. -/
theorem genLoop_mem {seed : Nat} {pid bid : String} {sorted : List MutationRecord}
    {mx : Nat} {P : Mutant → Prop}
    (hP : ∀ k sel sig numSoFar,
      (genAttempt sorted (seed + k * 1000) 17 mx = .ok (sel, sig) ∨
       genAttempt sorted (seed + k * 1000 + 9999) 23 mx = .ok (sel, sig)) →
      P (mkMutant pid bid (seed + k * 1000) sel sig numSoFar))
    {ks : List Nat} {acc : List Mutant} {used : List String} {l : List Mutant}
    (hacc : ∀ m ∈ acc, P m)
    (h : genLoop seed pid bid sorted mx ks acc used = .ok l) :
    ∀ m ∈ l, P m := by
  induction ks generalizing acc used with
  | nil =>
    simp only [genLoop] at h
    cases h
    exact hacc
  | cons k ks ih =>
    simp only [genLoop] at h
    split at h
    · cases h
    · rename_i p hstep
      rcases genStep_shape hstep with heq | ⟨sel, sig, hatt, _, heq⟩
      · rw [heq] at h
        exact ih hacc h
      · rw [heq] at h
        refine ih ?_ h
        intro m hm
        rcases List.mem_append.mp hm with hm | hm
        · exact hacc m hm
        · simp only [List.mem_singleton] at hm
          subst hm
          exact hP k sel sig acc.length hatt

set_option maxRecDepth 1000000 in
/-- Evaluation of the sample generation run: seed 42, records
`[sampleRecA, sampleRecB]`, two combinations of at most two mutations
(shared by several witnesses below). -/
theorem sampleRun_eq :
    generate_unique_mutants 42 "p" "b" [sampleRecA, sampleRecB] 2 2 =
      .ok [sampleMutant1, sampleMutant2] := by
  decide

/-! ## Claim theorems -/

/-- C1: for fixed inputs (seed, project key, bug key, record list, number of
combinations, max mutations per combination), two runs of
`generate_unique_mutants` — which is a pure function of these inputs and of
no process-level random state — produce identical signature sequences. -/
theorem c1_generation_deterministic (seed1 seed2 : Nat) (pid1 pid2 bid1 bid2 : String)
    (recs1 recs2 : List MutationRecord) (n1 n2 mx1 mx2 : Nat)
    (hs : seed1 = seed2) (hp : pid1 = pid2) (hb : bid1 = bid2) (hr : recs1 = recs2)
    (hn : n1 = n2) (hm : mx1 = mx2) :
    (generate_unique_mutants seed1 pid1 bid1 recs1 n1 mx1).map (List.map Mutant.signature) =
    (generate_unique_mutants seed2 pid2 bid2 recs2 n2 mx2).map (List.map Mutant.signature) := by
  subst hs; subst hp; subst hb; subst hr; subst hn; subst hm; rfl

/-- Witness for C1 at the sample inputs. -/
theorem c1_witness :
    (generate_unique_mutants 42 "p" "b" [sampleRecA, sampleRecB] 2 2).map
        (List.map Mutant.signature) =
      (generate_unique_mutants 42 "p" "b" [sampleRecA, sampleRecB] 2 2).map
        (List.map Mutant.signature) :=
  c1_generation_deterministic 42 42 "p" "p" "b" "b" [sampleRecA, sampleRecB]
    [sampleRecA, sampleRecB] 2 2 2 2 rfl rfl rfl rfl rfl rfl

/-- C2: no two combinations returned by one call of `generate_unique_mutants`
share a `signature`. -/
theorem c2_signatures_unique (seed : Nat) (pid bid : String) (recs : List MutationRecord)
    (n mx : Nat) (l : List Mutant)
    (h : generate_unique_mutants seed pid bid recs n mx = .ok l) :
    l.Pairwise (fun a b => a.signature ≠ b.signature) := by
  simp only [generate_unique_mutants] at h
  exact genLoop_pairwise (by simp) (by simp) h

/-- Witness for C2 on the sample run. -/
theorem c2_witness :
    ([sampleMutant1, sampleMutant2] : List Mutant).Pairwise
      (fun a b => a.signature ≠ b.signature) :=
  c2_signatures_unique 42 "p" "b" [sampleRecA, sampleRecB] 2 2 _ sampleRun_eq

/-- C3 (code bug evidence): a two-mutation batch in which the second mutation
does not match its target line is not aborted: `apply_multiple_mutations`
silently skips the non-matching mutation, still writes the file with the
other edit applied, and reports success. -/
theorem c3_partial_batch_written :
    apply_multiple_mutations ["keep\n", "target line\n"]
        [⟨"1", "M", "A", 2, "target", "CHANGED"⟩, ⟨"2", "M", "A", 1, "NOMATCH", "x"⟩] =
      (true, ["keep\n", "CHANGED line\n"]) := by
  decide

set_option maxRecDepth 1000000 in
/-- C4 (code bug evidence): `generate_unique_mutants` on an empty record list
with `num_mutants = 1`, `max_mutations = 1` raises `ZeroDivisionError` at the
index formula `(mutant_seed + i * 17) % len(sorted_mutations)` instead of
returning the empty list. -/
theorem c4_empty_records_raises :
    generate_unique_mutants 42 "" "" [] 1 1 = .error "ZeroDivisionError" := by
  decide

/-- C5 counterexample: on the line `"a + a\n"`, replacing `"a"` by `"b"`
rewrites every occurrence — the result is `"b + b\n"`, not the
first-occurrence-only `"b + a\n"` the claim describes. -/
theorem c5_counterexample :
    apply_mutation_to_file ["a + a\n"] 1 "a" "b" = (true, ["b + b\n"]) ∧
    (apply_mutation_to_file ["a + a\n"] 1 "a" "b").2 ≠ ["b + a\n"] := by
  decide

/-- C5 (amended): when the target line contains `original_code` as an exact
substring, `apply_mutation_to_file` succeeds, rewrites the target line with
every (leftmost, non-overlapping) occurrence of `original_code` replaced by
`mutated_code` (Python `str.replace` semantics), and leaves the number of
lines and every other line unchanged. -/
theorem c5_exact_match_replaces_all (lines : List String) (line_number : Int)
    (original_code mutated_code : String)
    (h1 : 1 ≤ line_number) (h2 : line_number ≤ lines.length)
    (h3 : pyContains original_code (lines.getD (line_number - 1).toNat "") = true) :
    apply_mutation_to_file lines line_number original_code mutated_code =
      (true, lines.set (line_number - 1).toNat
        (pyReplace (lines.getD (line_number - 1).toNat "") original_code mutated_code)) ∧
    (apply_mutation_to_file lines line_number original_code mutated_code).2.length
        = lines.length ∧
    ∀ j, j ≠ (line_number - 1).toNat →
      (apply_mutation_to_file lines line_number original_code mutated_code).2.getD j ""
        = lines.getD j "" := by
  have hguard : ¬ (line_number < 1 ∨ line_number > (lines.length : Int)) := by omega
  have heq : apply_mutation_to_file lines line_number original_code mutated_code =
      (true, lines.set (line_number - 1).toNat
        (pyReplace (lines.getD (line_number - 1).toNat "") original_code mutated_code)) := by
    unfold apply_mutation_to_file
    rw [if_neg hguard, if_pos h3]
  refine ⟨heq, ?_, ?_⟩
  · rw [heq]; exact List.length_set ..
  · intro j hj
    rw [heq]
    simp only [List.getD, List.get?_eq_getElem?]
    rw [List.getElem?_set_ne (Ne.symm hj)]

/-- Witness for C5 (amended) on a concrete file. -/
theorem c5_witness :
    apply_mutation_to_file ["x + x\n"] 1 "x" "y" = (true, ["y + y\n"]) := by
  have h := (c5_exact_match_replaces_all ["x + x\n"] 1 "x" "y"
    (by decide) (by decide) (by decide)).1
  exact h.trans (by decide)

set_option maxRecDepth 1000000 in
/-- C6 counterexample: with one record, `maxPerCombination = 2` and seed 0,
the drawn mutation count is 2 and both index-formula draws select the same
record, which then appears twice in the combination's record list — the
repeated selection does not collapse, so the list is not duplicate-free. -/
theorem c6_counterexample :
    generate_unique_mutants 0 "p" "b" [⟨"1", "M", "C", 10, "o", "m"⟩] 1 2 =
      .ok [⟨"1|1", [⟨"1", "M", "C", 10, "o", "m"⟩, ⟨"1", "M", "C", 10, "o", "m"⟩], 2,
            ["M", "M"], "C:10:M|C:10:M", "p", "b", 1000,
            some "M", some "C", some 10, some "o", some "m"⟩] ∧
    ¬ ([⟨"1", "M", "C", 10, "o", "m"⟩, ⟨"1", "M", "C", 10, "o", "m"⟩] :
        List MutationRecord).Nodup := by
  decide

/-- C6 (amended): selection uses the index formula, and a repeated selected
index contributes the same record again — the combination's record list has
length exactly equal to the drawn mutation count `c` with `1 ≤ c ≤
maxPerCombination`, every entry comes from the input record list, and the
same record may appear more than once (so the number of distinct records can
be smaller than `c`, but the list itself does not shrink). -/
theorem c6_index_formula_duplicates (seed : Nat) (pid bid : String)
    (recs : List MutationRecord) (n mx : Nat) (l : List Mutant)
    (h : generate_unique_mutants seed pid bid recs n mx = .ok l) :
    ∀ m ∈ l, (∀ r ∈ m.mutations, r ∈ recs) ∧
      m.num_mutations = m.mutations.length ∧
      1 ≤ m.num_mutations ∧ m.num_mutations ≤ mx := by
  simp only [generate_unique_mutants] at h
  refine genLoop_mem ?_ (by simp) h
  intro k sel sig numSoFar hatt
  have hshape : ∃ c, 1 ≤ c ∧ c ≤ mx ∧ pySorted keyLe recs ≠ [] ∧
      ∃ base step, sel = pySorted selLe (selectRecords (pySorted keyLe recs) base step c) := by
    rcases hatt with hatt | hatt
    · obtain ⟨c, _, hc1, hc2, hnil, hsel, _⟩ := genAttempt_ok hatt
      exact ⟨c, hc1, hc2, hnil, _, _, hsel⟩
    · obtain ⟨c, _, hc1, hc2, hnil, hsel, _⟩ := genAttempt_ok hatt
      exact ⟨c, hc1, hc2, hnil, _, _, hsel⟩
  obtain ⟨c, hc1, hc2, hnil, base, step, hsel⟩ := hshape
  have hmut : (mkMutant pid bid (seed + k * 1000) sel sig numSoFar).mutations = sel := rfl
  have hnum : (mkMutant pid bid (seed + k * 1000) sel sig numSoFar).num_mutations
      = sel.length := rfl
  have hlen : sel.length = c := by
    rw [hsel, length_pySorted, selectRecords_length]
  refine ⟨?_, ?_, ?_, ?_⟩
  · intro r hr
    rw [hmut, hsel] at hr
    have hr2 := selectRecords_mem hnil (mem_pySorted.mp hr)
    exact mem_pySorted.mp hr2
  · rw [hmut, hnum]
  · rw [hnum, hlen]; exact hc1
  · rw [hnum, hlen]; exact hc2

/-- Witness for C6 (amended): the second sample combination drew two records,
its first record is one of the input records, and its size is within bounds. -/
theorem c6_witness :
    sampleRecA ∈ [sampleRecA, sampleRecB] ∧
    sampleMutant2.num_mutations = sampleMutant2.mutations.length ∧
    1 ≤ sampleMutant2.num_mutations ∧ sampleMutant2.num_mutations ≤ 2 := by
  have h := c6_index_formula_duplicates 42 "p" "b" [sampleRecA, sampleRecB] 2 2
    [sampleMutant1, sampleMutant2] sampleRun_eq sampleMutant2 (by simp)
  exact ⟨h.1 sampleRecA (by decide), h.2.1, h.2.2.1, h.2.2.2⟩

/-- C7: `apply_mutation_to_file` with an out-of-range line number (less than 1
or greater than the number of lines) returns failure and leaves the file
byte-identical to its pre-call state. -/
theorem c7_out_of_range_fails (lines : List String) (line_number : Int)
    (original_code mutated_code : String)
    (h : line_number < 1 ∨ line_number > (lines.length : Int)) :
    apply_mutation_to_file lines line_number original_code mutated_code = (false, lines) := by
  unfold apply_mutation_to_file
  rw [if_pos h]

/-- Witness for C7 at line number 0 of a one-line file. -/
theorem c7_witness :
    apply_mutation_to_file ["x\n"] 0 "x" "y" = (false, ["x\n"]) :=
  c7_out_of_range_fails ["x\n"] 0 "x" "y" (by decide)

/-- C8: the duplicate line is dropped (keeping the first occurrence) and the
record differing at line 119 is kept, so exactly two records come back. -/
theorem c8_duplicate_filtering :
    parse_all_mutations
      ["1:LVR:FALSE:TRUE:pkg.Dist:47:2230:false |==> true",
       "1:LVR:FALSE:TRUE:pkg.Dist:47:2230:false |==> true",
       "30:LVR:0:POS:pkg.Dist@cumulativeProbability(int):119:5471:0.0 |==> 1.0"] =
      [⟨"1", "LVR", "pkg.Dist", 47, "false", "true"⟩,
       ⟨"30", "LVR", "pkg.Dist", 119, "0.0", "1.0"⟩] := by
  decide

/-- C9: the `finally` cleanup of `process_single_mutant` runs exactly for
workspace paths containing the substring `"temp_mutant_"`, and every
workspace path built by `process_mutants_parallel` contains it. -/
theorem c9_cleanup_guard :
    (∀ parent project_id bug_id raw_mid uuidHex : String, ∀ i : Nat,
      cleanupRuns (mkMutantDir parent project_id bug_id raw_mid i uuidHex) = true) ∧
    (∀ dir : String, cleanupRuns dir = true ↔ ("temp_mutant_" : String).data <:+: dir.data) := by
  constructor
  · intro parent project_id bug_id raw_mid uuidHex i
    simp only [cleanupRuns]
    refine pyContains_iff.mpr ⟨(parent ++ "/").data,
      (project_id ++ "_" ++ bug_id ++ "_" ++ sanitizeMutantId raw_mid ++ "_"
        ++ toString i ++ "_" ++ uuidHex).data, ?_⟩
    simp [mkMutantDir, String.data_append, List.append_assoc]
  · intro dir
    exact pyContains_iff

/-- C10: with an empty `original_code` and an in-range line number,
`apply_mutation_to_file` succeeds and rewrites the target line with
`mutated_code` inserted at every character boundary (before the first
character, between every two characters, and after the last), exactly as
Python `line.replace("", mutated_code)` does. -/
theorem c10_empty_original_inserts_everywhere (lines : List String) (line_number : Int)
    (mutated_code : String) (h1 : 1 ≤ line_number) (h2 : line_number ≤ (lines.length : Int)) :
    apply_mutation_to_file lines line_number "" mutated_code =
      (true, lines.set (line_number - 1).toNat
        ⟨mutated_code.data ++
          (lines.getD (line_number - 1).toNat "").data.flatMap
            (fun c => c :: mutated_code.data)⟩) := by
  have hguard : ¬ (line_number < 1 ∨ line_number > (lines.length : Int)) := by omega
  have hc : pyContains "" (lines.getD (line_number - 1).toNat "") = true :=
    hasSub_nil_pat _
  unfold apply_mutation_to_file
  rw [if_neg hguard, if_pos hc]
  unfold pyReplace
  rw [if_pos (by rfl)]
  rw [pyInterleave_eq]

/-- Witness for C10 on a concrete two-character line. -/
theorem c10_witness :
    apply_mutation_to_file ["ab\n"] 1 "" "X" = (true, ["XaXbX\nX"]) := by
  have h := c10_empty_original_inserts_everywhere ["ab\n"] 1 "X" (by decide) (by decide)
  exact h.trans (by decide)

end CodeReasoning
